import Mathlib

/-!
Verification development for the slideshow script
`src/public/media/content/movieee.py`.

The script assembles a slideshow from a fixed list of still images,
applying a per-image time-varying zoom (crop window computed per frame)
and concatenating the per-image clips.  We embed the arithmetic of the
script shallowly over `ℚ`:

* Python's float arithmetic is modelled with exact rationals (all claims
  are about the algebraic form of the scaling formula);
* Python's `int(...)` on nonnegative values truncates toward zero,
  modelled by `pyInt`;
* the fallible division `t / duration` is additionally modelled by a
  guarded variant returning `Option`, mirroring Python's
  `ZeroDivisionError` when `duration = 0`;
* `random.uniform(0.3, 0.7)` is modelled by an explicit parameter `r`
  with the hypothesis `3/10 ≤ r ≤ 7/10` (the range guaranteed by the
  library call);
* `moviepy`'s `ImageClip` carries its `duration` argument as the clip's
  nominal duration, `clip.fl` preserves it, and
  `concatenate_videoclips(clips, method="compose")` yields a timeline
  whose nominal duration is the sum of the clip durations and raises on
  an empty list; only these facts of the third-party library are used,
  and they are modelled explicitly below.
-/

namespace Movieee

/-- The hard-coded image list of the script (`image_files`). -/
def image_files : List String :=
  ["apl1.jpg", "apl2.jpg", "apl3.jpg", "apl4.jpg",
   "apl5.jpg", "apl6.jpg", "apl7.jpg", "apl8.jpg",
   "apl9.jpg", "apl10.jpg", "apl11.jpg", "apl12.jpg"]

/-- `output_video = "apl.mp4"`. -/
def output_video : String := "apl.mp4"

/-- `duration_per_image = 5` (seconds). -/
def duration_per_image : ℚ := 5

/-- `zoom_factor = 0.1` (10% zoom parameter). -/
def zoom_factor : ℚ := 1/10

/-- `fps = 30`. -/
def fps : ℕ := 30

/-- Python's `int(...)` applied to a rational: truncation toward zero. -/
def pyInt (q : ℚ) : ℤ := if 0 ≤ q then ⌊q⌋ else ⌈q⌉

/-- The scale formula of `make_frame`:
`scale = 1 + zoom_factor * (t / duration) if t < duration / 2
         else 1 + zoom_factor * (1 - t / duration)`. -/
def makeFrameScale (zf duration t : ℚ) : ℚ :=
  if t < duration / 2 then 1 + zf * (t / duration)
  else 1 + zf * (1 - t / duration)

/-- The scale formula with the division guarded: Python raises
`ZeroDivisionError` on `t / duration` when `duration = 0` (both branches
of the conditional expression divide by `duration`). -/
def makeFrameScaleChecked (zf duration t : ℚ) : Option ℚ :=
  if duration = 0 then none
  else some (makeFrameScale zf duration t)

/-- The crop rectangle passed to `clip.crop(x_center=..., y_center=...,
width=..., height=...)` inside `make_frame`. -/
structure CropSpec where
  xCenter : ℚ
  yCenter : ℚ
  width : ℤ
  height : ℤ
deriving DecidableEq

/-- `make_frame` of the script, as the crop rectangle it requests at
time `t`: `new_width = int(width * scale)`,
`new_height = int(height * scale)`, centered at the fixed
`(zoom_x, zoom_y)`. -/
def make_frame (width height : ℕ) (zoom_x zoom_y zf duration t : ℚ) :
    CropSpec :=
  let scale := makeFrameScale zf duration t
  { xCenter := zoom_x
    yCenter := zoom_y
    width := pyInt ((width : ℚ) * scale)
    height := pyInt ((height : ℚ) * scale) }

/-- The clip returned by `create_zoom_effect`: the nominal duration
(from `ImageClip(image_file, duration=duration)`, preserved by
`clip.fl`), the zoom center fixed at creation time, and the per-frame
crop function. -/
structure ZoomClip where
  duration : ℚ
  zoomX : ℚ
  zoomY : ℚ
  frame : ℚ → CropSpec

/-- An input image together with the outcome of the two
`random.uniform(0.3, 0.7)` draws made for it (`rx`, `ry`). -/
structure ImageSpec where
  width : ℕ
  height : ℕ
  rx : ℚ
  ry : ℚ

/-- `create_zoom_effect(image_file, duration, zoom_factor)`:
`zoom_x = random.uniform(0.3, 0.7) * width`,
`zoom_y = random.uniform(0.3, 0.7) * height`, then every frame is
produced by `make_frame` with those fixed centers. -/
def create_zoom_effect (img : ImageSpec) (duration zf : ℚ) : ZoomClip :=
  let zoom_x := img.rx * (img.width : ℚ)
  let zoom_y := img.ry * (img.height : ℚ)
  { duration := duration
    zoomX := zoom_x
    zoomY := zoom_y
    frame := fun t =>
      make_frame img.width img.height zoom_x zoom_y zf duration t }

/-- Modelled third-party behavior: `concatenate_videoclips(clips,
method="compose")` yields a timeline whose nominal duration is the sum
of the clip durations, and raises (here: `none`) on an empty clip
list. -/
def concatenate_videoclips (clips : List ZoomClip) : Option ℚ :=
  match clips with
  | [] => none
  | c :: cs => some (((c :: cs).map ZoomClip.duration).sum)

/-- `create_slideshow(image_files, duration_per_image, zoom_factor)`:
map `create_zoom_effect` over the images, then concatenate.  The result
is the nominal duration of the assembled timeline (`none` = failure). -/
def create_slideshow (images : List ImageSpec) (dpi zf : ℚ) :
    Option ℚ :=
  concatenate_videoclips
    (images.map (fun img => create_zoom_effect img dpi zf))

/-! ### Basic facts about the scale formula -/

/-- The scale at `t = 0` is `1`. -/
lemma makeFrameScale_zero (zf D : ℚ) (hD : 0 < D) :
    makeFrameScale zf D 0 = 1 := by
  unfold makeFrameScale
  rw [if_pos (by positivity : (0 : ℚ) < D / 2)]
  simp

/-- The scale at `t = D` is `1`. -/
lemma makeFrameScale_duration (zf D : ℚ) (hD : 0 < D) :
    makeFrameScale zf D D = 1 := by
  unfold makeFrameScale
  rw [if_neg (by linarith [half_lt_self hD] : ¬ D < D / 2),
    div_self hD.ne']
  ring

/-- The scale at the midpoint `t = D/2` is `1 + zf/2`: the midpoint
satisfies `¬ (D/2 < D/2)`, so the second branch applies. -/
lemma makeFrameScale_midpoint (zf D : ℚ) (hD : 0 < D) :
    makeFrameScale zf D (D / 2) = 1 + zf / 2 := by
  unfold makeFrameScale
  rw [if_neg (lt_irrefl _)]
  have hD' : D ≠ 0 := hD.ne'
  field_simp
  ring

/-- C3: for every duration `D > 0` and zoom magnitude `Z`, the scale
computed by the per-frame zoom formula equals exactly `1` at `t = 0`
and at `t = D` (no zoom at the clip boundaries). -/
theorem scale_one_at_boundaries (Z D : ℚ) (hD : 0 < D) :
    makeFrameScale Z D 0 = 1 ∧ makeFrameScale Z D D = 1 :=
  ⟨makeFrameScale_zero Z D hD, makeFrameScale_duration Z D hD⟩

/-- Witness for `scale_one_at_boundaries` at `Z = 1/10`, `D = 5`. -/
theorem scale_one_at_boundaries_witness :
    (0 : ℚ) < 5 ∧
      (makeFrameScale (1/10) 5 0 = 1 ∧ makeFrameScale (1/10) 5 5 = 1) :=
  ⟨by norm_num, scale_one_at_boundaries (1/10) 5 (by norm_num)⟩

/-- C1 counterexample: at `D = 2 > 0`, `Z = 1`, the scale at
`t = D/2 = 1` is `3/2`, not `1 + Z = 2`: the midpoint falls into the
second branch, yielding `1 + Z * (1 - 1/2) = 1 + Z/2`. -/
theorem scale_midpoint_not_one_add_Z :
    (0 : ℚ) < 2 ∧ makeFrameScale 1 2 (2 / 2) ≠ 1 + 1 := by
  constructor
  · norm_num
  · norm_num [makeFrameScale]

/-- C1 (amended): for every duration `D > 0` and zoom magnitude `Z`,
the scale computed by the per-frame zoom formula at `t = D/2` equals
`1 + Z/2` (the peak deviation from the original size is half the zoom
magnitude). -/
theorem scale_at_midpoint (Z D : ℚ) (hD : 0 < D) :
    makeFrameScale Z D (D / 2) = 1 + Z / 2 :=
  makeFrameScale_midpoint Z D hD

/-- Witness for `scale_at_midpoint` at `Z = 1`, `D = 2`. -/
theorem scale_at_midpoint_witness :
    (0 : ℚ) < 2 ∧ makeFrameScale 1 2 (2 / 2) = 1 + 1 / 2 :=
  ⟨by norm_num, scale_at_midpoint 1 2 (by norm_num)⟩

/-- C9: the per-frame scale is symmetric about the midpoint: for every
duration `D > 0` and every `t ∈ [0, D]`, the scale at `t` equals the
scale at `D - t`. -/
theorem scale_symmetric (Z D t : ℚ) (hD : 0 < D) (h0 : 0 ≤ t)
    (h1 : t ≤ D) :
    makeFrameScale Z D t = makeFrameScale Z D (D - t) := by
  have hD' : D ≠ 0 := hD.ne'
  unfold makeFrameScale
  rcases lt_trichotomy t (D / 2) with h | h | h
  · rw [if_pos h, if_neg (by linarith : ¬ D - t < D / 2)]
    field_simp
  · rw [if_neg (by linarith : ¬ t < D / 2),
      if_neg (by rw [h]; linarith : ¬ D - t < D / 2)]
    have hhalf : D - t = t := by rw [h]; ring
    rw [hhalf]
  · rw [if_neg (by linarith : ¬ t < D / 2),
      if_pos (by linarith : D - t < D / 2)]
    field_simp

/-- Witness for `scale_symmetric` at `Z = 1`, `D = 4`, `t = 1`. -/
theorem scale_symmetric_witness :
    ((0 : ℚ) < 4 ∧ (0 : ℚ) ≤ 1 ∧ (1 : ℚ) ≤ 4) ∧
      makeFrameScale 1 4 1 = makeFrameScale 1 4 (4 - 1) :=
  ⟨⟨by norm_num, by norm_num, by norm_num⟩,
    scale_symmetric 1 4 1 (by norm_num) (by norm_num) (by norm_num)⟩

/-! ### Monotonicity of the scale and the crop window -/

/-- On the first half of the clip the scale strictly increases. -/
lemma makeFrameScale_strictMonoOn_first (Z D t1 t2 : ℚ) (hD : 0 < D)
    (hZ : 0 < Z) (h12 : t1 < t2) (h2 : t2 < D / 2) :
    makeFrameScale Z D t1 < makeFrameScale Z D t2 := by
  unfold makeFrameScale
  rw [if_pos (by linarith : t1 < D / 2), if_pos h2]
  gcongr

/-- On the second half of the clip the scale strictly decreases. -/
lemma makeFrameScale_strictAntiOn_second (Z D t1 t2 : ℚ) (hD : 0 < D)
    (hZ : 0 < Z) (h1 : D / 2 ≤ t1) (h12 : t1 < t2) :
    makeFrameScale Z D t2 < makeFrameScale Z D t1 := by
  unfold makeFrameScale
  rw [if_neg (by linarith : ¬ t1 < D / 2),
    if_neg (by linarith : ¬ t2 < D / 2)]
  gcongr

/-- C2 counterexample: with a 100×100 image, `Z = 1`, `D = 2`, and
times `t1 = 0 < t2 = 1/2 < D/2`, the crop-window width computed by
`make_frame` at `t2` is `125`, larger than the `100` at `t1`: the
window is not strictly decreasing over the first half — it grows,
because the scale exceeds `1` there. -/
theorem crop_window_first_half_not_shrinking :
    ((0 : ℚ) ≤ 0 ∧ (0 : ℚ) < 1 / 2 ∧ (1 : ℚ) / 2 < 2 / 2) ∧
      ¬ (make_frame 100 100 50 50 1 2 (1 / 2)).width <
          (make_frame 100 100 50 50 1 2 0).width := by
  refine ⟨by norm_num, ?_⟩
  norm_num [make_frame, makeFrameScale, pyInt]

/-- C2 (amended): for `W > 0`, `D > 0`, `Z > 0` and `t1 < t2 ≤ D`, the
real-valued crop-window extent `W * scale` strictly INCREASES over the
first half of the duration and strictly DECREASES back over the second
half, reaching the original extent at `t = D` (the code enlarges the
window toward the midpoint rather than shrinking it). -/
theorem crop_window_grows_then_shrinks (W : ℕ) (Z D t1 t2 : ℚ)
    (hW : 0 < W) (hD : 0 < D) (hZ : 0 < Z) (h12 : t1 < t2)
    (h2 : t2 ≤ D) :
    (t2 < D / 2 →
        (W : ℚ) * makeFrameScale Z D t1 < W * makeFrameScale Z D t2) ∧
      (D / 2 ≤ t1 →
        (W : ℚ) * makeFrameScale Z D t2 < W * makeFrameScale Z D t1) ∧
      (W : ℚ) * makeFrameScale Z D D = W := by
  have hW' : (0 : ℚ) < (W : ℚ) := by exact_mod_cast hW
  refine ⟨fun h => ?_, fun h => ?_, ?_⟩
  · exact (mul_lt_mul_left hW').mpr
      (makeFrameScale_strictMonoOn_first Z D t1 t2 hD hZ h12 h)
  · exact (mul_lt_mul_left hW').mpr
      (makeFrameScale_strictAntiOn_second Z D t1 t2 hD hZ h h12)
  · rw [makeFrameScale_duration Z D hD, mul_one]

/-- Witness for `crop_window_grows_then_shrinks` at `W = 100`, `Z = 1`,
`D = 2`, `t1 = 0`, `t2 = 1/2`. -/
theorem crop_window_grows_then_shrinks_witness :
    ((0 : ℕ) < 100 ∧ (0 : ℚ) < 2 ∧ (0 : ℚ) < 1 ∧ (0 : ℚ) < 1 / 2 ∧
        (1 : ℚ) / 2 ≤ 2) ∧
      (((1 : ℚ) / 2 < 2 / 2 →
          (100 : ℚ) * makeFrameScale 1 2 0 <
            100 * makeFrameScale 1 2 (1 / 2)) ∧
        (2 / 2 ≤ (0 : ℚ) →
          (100 : ℚ) * makeFrameScale 1 2 (1 / 2) <
            100 * makeFrameScale 1 2 0) ∧
        (100 : ℚ) * makeFrameScale 1 2 2 = 100) :=
  ⟨by norm_num,
    crop_window_grows_then_shrinks 100 1 2 0 (1 / 2) (by norm_num)
      (by norm_num) (by norm_num) (by norm_num) (by norm_num)⟩

/-! ### Bounds on the scale and the crop window -/

/-- The scale is at least `1` on `[0, D]` when `Z ≥ 0`. -/
lemma one_le_makeFrameScale (Z D t : ℚ) (hD : 0 < D) (hZ : 0 ≤ Z)
    (h0 : 0 ≤ t) (h1 : t ≤ D) : 1 ≤ makeFrameScale Z D t := by
  unfold makeFrameScale
  split
  · have h : 0 ≤ t / D := div_nonneg h0 hD.le
    have := mul_nonneg hZ h
    linarith
  · have h : t / D ≤ 1 := (div_le_one hD).mpr h1
    have := mul_nonneg hZ (by linarith : (0 : ℚ) ≤ 1 - t / D)
    linarith

/-- The scale is at most `1 + Z/2` on `[0, D]` when `Z ≥ 0`. -/
lemma makeFrameScale_le_peak (Z D t : ℚ) (hD : 0 < D) (hZ : 0 ≤ Z)
    (h0 : 0 ≤ t) (h1 : t ≤ D) : makeFrameScale Z D t ≤ 1 + Z / 2 := by
  unfold makeFrameScale
  split
  · rename_i h
    have h' : t / D ≤ 1 / 2 := by
      rw [div_le_div_iff hD (by norm_num : (0 : ℚ) < 2)]
      linarith
    have := mul_le_mul_of_nonneg_left h' hZ
    linarith
  · rename_i h
    push_neg at h
    have h' : 1 / 2 ≤ t / D := by
      rw [div_le_div_iff (by norm_num : (0 : ℚ) < 2) hD]
      linarith
    have := mul_le_mul_of_nonneg_left
      (by linarith : 1 - t / D ≤ 1 / 2) hZ
    linarith

/-- A scale of at least `1` keeps the truncated product at least `n`. -/
lemma le_pyInt_cast_mul (n : ℕ) (s : ℚ) (hs : 1 ≤ s) :
    (n : ℤ) ≤ pyInt ((n : ℚ) * s) := by
  have hn : (0 : ℚ) ≤ (n : ℚ) := Nat.cast_nonneg n
  have hle : (n : ℚ) ≤ (n : ℚ) * s := le_mul_of_one_le_right hn hs
  unfold pyInt
  rw [if_pos (le_trans hn hle)]
  exact Int.le_floor.mpr (by push_cast; exact hle)

/-- C10: for `D > 0`, `Z ≥ 0` and `t ∈ [0, D]`, the scale satisfies
`1 ≤ scale ≤ 1 + Z/2`, and hence the crop window computed by
`make_frame` is never smaller than the original image:
`new_width ≥ width` and `new_height ≥ height`. -/
theorem crop_window_never_smaller (W H : ℕ) (zx zy Z D t : ℚ)
    (hD : 0 < D) (hZ : 0 ≤ Z) (h0 : 0 ≤ t) (h1 : t ≤ D) :
    (1 ≤ makeFrameScale Z D t ∧ makeFrameScale Z D t ≤ 1 + Z / 2) ∧
      (W : ℤ) ≤ (make_frame W H zx zy Z D t).width ∧
      (H : ℤ) ≤ (make_frame W H zx zy Z D t).height := by
  have hs := one_le_makeFrameScale Z D t hD hZ h0 h1
  exact ⟨⟨hs, makeFrameScale_le_peak Z D t hD hZ h0 h1⟩,
    le_pyInt_cast_mul W _ hs, le_pyInt_cast_mul H _ hs⟩

/-- Witness for `crop_window_never_smaller` at a 640×480 image with
center `(320, 240)`, `Z = 1/10`, `D = 5`, `t = 2`. -/
theorem crop_window_never_smaller_witness :
    ((0 : ℚ) < 5 ∧ (0 : ℚ) ≤ 1 / 10 ∧ (0 : ℚ) ≤ 2 ∧ (2 : ℚ) ≤ 5) ∧
      ((1 ≤ makeFrameScale (1 / 10) 5 2 ∧
          makeFrameScale (1 / 10) 5 2 ≤ 1 + (1 / 10) / 2) ∧
        (640 : ℤ) ≤ (make_frame 640 480 320 240 (1 / 10) 5 2).width ∧
        (480 : ℤ) ≤ (make_frame 640 480 320 240 (1 / 10) 5 2).height) :=
  ⟨by norm_num,
    crop_window_never_smaller 640 480 320 240 (1 / 10) 5 2 (by norm_num)
      (by norm_num) (by norm_num) (by norm_num)⟩

/-! ### Slideshow assembly -/

/-- Concatenating a nonempty clip list yields the sum of durations. -/
lemma concatenate_videoclips_eq (clips : List ZoomClip)
    (hne : clips ≠ []) :
    concatenate_videoclips clips =
      some ((clips.map ZoomClip.duration).sum) := by
  cases clips with
  | nil => exact absurd rfl hne
  | cons c cs => rfl

/-- The clip built by `create_zoom_effect` keeps the requested
duration (from `ImageClip(image_file, duration=duration)`). -/
lemma create_zoom_effect_duration (img : ImageSpec) (d zf : ℚ) :
    (create_zoom_effect img d zf).duration = d := rfl

/-- The durations of the zoom clips sum to `(number of images) * d`. -/
lemma slideshow_durations_sum (imgs : List ImageSpec) (d zf : ℚ) :
    ((imgs.map (fun img => create_zoom_effect img d zf)).map
        ZoomClip.duration).sum = imgs.length * d := by
  induction imgs with
  | nil => simp
  | cons a l ih =>
    simp only [List.map_cons, List.sum_cons,
      create_zoom_effect_duration, ih, List.length_cons]
    push_cast
    ring

/-- C4: with one image spec per entry of the hard-coded 12-element
`image_files` list and the script's `duration_per_image = 5`, the
assembled timeline's nominal duration is `12 × 5 = 60` seconds (no
cross-fade shortening occurs in the duration-summing concatenation). -/
theorem slideshow_total_duration (imgs : List ImageSpec) (zf : ℚ)
    (h : imgs.length = image_files.length) :
    create_slideshow imgs duration_per_image zf = some 60 := by
  have h12 : imgs.length = 12 := by rw [h]; rfl
  have hne :
      imgs.map (fun img => create_zoom_effect img duration_per_image zf)
        ≠ [] := by
    intro hc
    have hlen := congrArg List.length hc
    simp [h12] at hlen
  unfold create_slideshow
  rw [concatenate_videoclips_eq _ hne, slideshow_durations_sum, h12]
  norm_num [duration_per_image]

/-- Witness for `slideshow_total_duration` with twelve 640×480 images
whose random draws all landed on `1/2`. -/
theorem slideshow_total_duration_witness :
    (List.replicate 12 (ImageSpec.mk 640 480 (1/2) (1/2))).length =
        image_files.length ∧
      create_slideshow
          (List.replicate 12 (ImageSpec.mk 640 480 (1/2) (1/2)))
          duration_per_image 0 = some 60 :=
  ⟨rfl, slideshow_total_duration _ 0 rfl⟩

/-- C8: given an empty image list, `create_slideshow` fails: the
concatenation of zero clips raises (modelled as `none`); the source
defines no behavior of its own for this case. -/
theorem empty_image_list_fails (d zf : ℚ) :
    create_slideshow [] d zf = none := rfl

/-! ### Zoom center -/

/-- C5: whenever the two `random.uniform(0.3, 0.7)` outcomes lie in
`[3/10, 7/10]` (as the library call guarantees), the zoom center chosen
by `create_zoom_effect` lies within the middle 40% of the image:
`zoom_x ∈ [0.3·W, 0.7·W]` and `zoom_y ∈ [0.3·H, 0.7·H]`. -/
theorem zoom_center_in_middle (img : ImageSpec) (D Z : ℚ)
    (hx1 : 3/10 ≤ img.rx) (hx2 : img.rx ≤ 7/10)
    (hy1 : 3/10 ≤ img.ry) (hy2 : img.ry ≤ 7/10) :
    (3/10 * (img.width : ℚ) ≤ (create_zoom_effect img D Z).zoomX ∧
      (create_zoom_effect img D Z).zoomX ≤ 7/10 * (img.width : ℚ)) ∧
    (3/10 * (img.height : ℚ) ≤ (create_zoom_effect img D Z).zoomY ∧
      (create_zoom_effect img D Z).zoomY ≤ 7/10 * (img.height : ℚ)) := by
  have hW : (0 : ℚ) ≤ (img.width : ℚ) := Nat.cast_nonneg _
  have hH : (0 : ℚ) ≤ (img.height : ℚ) := Nat.cast_nonneg _
  exact ⟨⟨mul_le_mul_of_nonneg_right hx1 hW,
      mul_le_mul_of_nonneg_right hx2 hW⟩,
    ⟨mul_le_mul_of_nonneg_right hy1 hH,
      mul_le_mul_of_nonneg_right hy2 hH⟩⟩

/-- Witness for `zoom_center_in_middle` on a 100×200 image with draws
`rx = 1/2`, `ry = 2/5`. -/
theorem zoom_center_in_middle_witness :
    ((3 : ℚ)/10 ≤ 1/2 ∧ (1 : ℚ)/2 ≤ 7/10 ∧
        (3 : ℚ)/10 ≤ 2/5 ∧ (2 : ℚ)/5 ≤ 7/10) ∧
      ((3/10 * ((ImageSpec.mk 100 200 (1/2) (2/5)).width : ℚ) ≤
          (create_zoom_effect (ImageSpec.mk 100 200 (1/2) (2/5)) 5
            (1/10)).zoomX ∧
        (create_zoom_effect (ImageSpec.mk 100 200 (1/2) (2/5)) 5
            (1/10)).zoomX ≤
          7/10 * ((ImageSpec.mk 100 200 (1/2) (2/5)).width : ℚ)) ∧
      (3/10 * ((ImageSpec.mk 100 200 (1/2) (2/5)).height : ℚ) ≤
          (create_zoom_effect (ImageSpec.mk 100 200 (1/2) (2/5)) 5
            (1/10)).zoomY ∧
        (create_zoom_effect (ImageSpec.mk 100 200 (1/2) (2/5)) 5
            (1/10)).zoomY ≤
          7/10 * ((ImageSpec.mk 100 200 (1/2) (2/5)).height : ℚ))) :=
  ⟨by norm_num,
    zoom_center_in_middle (ImageSpec.mk 100 200 (1/2) (2/5)) 5 (1/10)
      (by norm_num) (by norm_num) (by norm_num) (by norm_num)⟩

/-! ### Division guard and center fixity -/

/-- C6: the scale formula has no bounds checking, and its embedded
guarded division fails exactly at `duration = 0`: the error branch is
taken for every `t` when `D = 0`, and is unreachable when `D > 0`. -/
theorem zero_duration_division_fails (Z D t : ℚ) :
    makeFrameScaleChecked Z 0 t = none ∧
      (0 < D → (makeFrameScaleChecked Z D t).isSome = true) := by
  constructor
  · simp [makeFrameScaleChecked]
  · intro h
    simp [makeFrameScaleChecked, h.ne']

/-- Witness for `zero_duration_division_fails` at `Z = 1/10`, `D = 5`,
`t = 0`. -/
theorem zero_duration_division_fails_witness :
    makeFrameScaleChecked (1/10) 0 0 = none ∧
      ((0 : ℚ) < 5 ∧
        (makeFrameScaleChecked (1/10) 5 0).isSome = true) :=
  ⟨(zero_duration_division_fails (1/10) 5 0).1,
    by norm_num, (zero_duration_division_fails (1/10) 5 0).2
      (by norm_num)⟩

/-- C7: the zoom center is fixed once per clip: the crop rectangle that
`make_frame` requests has the same center at every time `t`, and that
center is the clip's `(zoom_x, zoom_y)` chosen at creation. -/
theorem zoom_center_fixed_per_clip (img : ImageSpec) (D Z t1 t2 : ℚ) :
    ((create_zoom_effect img D Z).frame t1).xCenter =
        (create_zoom_effect img D Z).zoomX ∧
      ((create_zoom_effect img D Z).frame t1).yCenter =
        (create_zoom_effect img D Z).zoomY ∧
      ((create_zoom_effect img D Z).frame t1).xCenter =
        ((create_zoom_effect img D Z).frame t2).xCenter ∧
      ((create_zoom_effect img D Z).frame t1).yCenter =
        ((create_zoom_effect img D Z).frame t2).yCenter :=
  ⟨rfl, rfl, rfl, rfl⟩

end Movieee
